import Mathlib

/-!
Verification development for the WCS (World Coordinate System) header parser
of the astrometry client repository (`internal/solver/result.go`).

The Go function `ParseWCSFile` is embedded shallowly:
  * the byte stream of the `.wcs` file is a `List Char`;
  * the Go `map[string]string` header map is an association list where the
    most recent insertion shadows earlier ones;
  * `float64` values are idealized as exact rationals (for values extracted
    from the header, which feed every branch decision) and exact reals (for
    the derived quantities that involve `sqrt`, `atan2` and `π`);
  * the two error returns of the Go function become an `Except` over an
    explicit error type (`ioFailure` for a failed `os.Open`, `parseFailed`
    for the final all-zero validation check).
-/

namespace Solver

/-! ## Character and string helpers (models of the Go `strings` functions) -/

/-- Whitespace as used by Go `strings.TrimSpace` restricted to ASCII
(space and the control characters 9–13); WCS headers are ASCII. -/
def isSpaceChar (c : Char) : Bool :=
  c.toNat = 32 || (9 ≤ c.toNat && c.toNat ≤ 13)

/-- The single-quote character, written by code point. -/
def isQuoteChar (c : Char) : Bool :=
  c.toNat = 39

/-- Trim characters satisfying `p` from both ends of a character list;
models Go `strings.TrimSpace` / `strings.Trim` for a one-character cutset. -/
def trimBy (p : Char → Bool) (l : List Char) : List Char :=
  ((l.dropWhile p).reverse.dropWhile p).reverse

/-- Go `strings.TrimSpace` (ASCII). -/
def trimSpace (l : List Char) : List Char :=
  trimBy isSpaceChar l

/-- Go `valuePart[:idx]` where `idx` is the index of the first `/`
(the whole string when there is no `/`). -/
def stripComment (l : List Char) : List Char :=
  l.takeWhile (· ≠ '/')

/-- Digits of a character list read as a natural number (most significant
first); caller guarantees the characters are decimal digits. -/
def digitsToNat (l : List Char) : ℕ :=
  l.foldl (fun a c => 10 * a + (c.toNat - 48)) 0

/-- Leading sign of a numeric literal: returns (isNegative, remainder).
Both `-` and `+` are accepted, as in Go `strconv.ParseFloat`. -/
def splitSign : List Char → Bool × List Char
  | [] => (false, [])
  | c :: rest =>
    if c = '-' then (true, rest)
    else if c = '+' then (false, rest)
    else (false, c :: rest)

/-- Mantissa of a decimal literal: digits with an optional decimal point,
at least one digit in total. Returns the value and the unconsumed rest. -/
def parseMantissa (cs : List Char) : Option (ℚ × List Char) :=
  let ip := cs.takeWhile Char.isDigit
  let rest := cs.dropWhile Char.isDigit
  match rest with
  | c :: rest2 =>
    if c = '.' then
      let fp := rest2.takeWhile Char.isDigit
      let rest3 := rest2.dropWhile Char.isDigit
      if ip.isEmpty && fp.isEmpty then none
      else some ((digitsToNat ip : ℚ) + (digitsToNat fp : ℚ) / (10 : ℚ) ^ fp.length, rest3)
    else if ip.isEmpty then none
    else some ((digitsToNat ip : ℚ), rest)
  | [] =>
    if ip.isEmpty then none
    else some ((digitsToNat ip : ℚ), [])

/-- Model of Go `strconv.ParseFloat(s, 64)` (library code, not part of this
repository): the decimal syntax `[+-]digits[.digits][(e|E)[+-]digits]`,
with exact rational semantics. The hexadecimal, `Inf` and `NaN` forms are
not modelled (they never occur in WCS headers), and `float64` rounding is
idealized away. -/
def parseFloat (s : String) : Option ℚ :=
  let (neg, cs) := splitSign s.data
  match parseMantissa cs with
  | none => none
  | some (m, rest) =>
    let signed := if neg then -m else m
    match rest with
    | [] => some signed
    | c :: rest2 =>
      if c = 'e' || c = 'E' then
        let (eneg, rest3) := splitSign rest2
        let ds := rest3.takeWhile Char.isDigit
        let rest4 := rest3.dropWhile Char.isDigit
        if ds.isEmpty || !rest4.isEmpty then none
        else
          let e : ℤ := if eneg then -(digitsToNat ds : ℤ) else (digitsToNat ds : ℤ)
          some (signed * (10 : ℚ) ^ e)
      else none

/-! ## The header map (model of the Go `map[string]string`) -/

/-- The header map: an association list in which the most recent insertion
comes first, so that a later duplicate key shadows an earlier one — the
observable behaviour of overwriting a Go map entry. -/
@[reducible] def HeaderMap : Type := List (String × String)

/-- Lookup in the header map: the value of the first (most recent) pair
with the given key; models `result.WCSHeader[key]`. -/
def HeaderMap.find (m : HeaderMap) (k : String) : Option String :=
  (List.find? (fun p => p.1 == k) m).map Prod.snd

/-! ## The metadata reader (lines 82–121 of `result.go`) -/

/-- The read loop of `ParseWCSFile`, structured with a fuel argument so
that it is structurally recursive (the kernel can evaluate it); the fuel
only has to dominate the number of loop iterations. -/
def readRecordsAux : ℕ → List Char → List (List Char)
  | 0, _ => []
  | fuel + 1, s =>
    if s.length < 80 then []
    else s.take 80 :: readRecordsAux fuel (s.drop 80)

/-- The read loop of `ParseWCSFile`: consume consecutive full 80-byte
records until a short read terminates the loop.  `s.length` iterations of
fuel always suffice since each iteration consumes 80 bytes. -/
def readRecords (s : List Char) : List (List Char) :=
  readRecordsAux s.length s

/-- Per-record parse, lines 95–117 of `result.go`: a record beginning with
`END` is skipped; a record without `=` is skipped; otherwise the key is the
text before the first `=` trimmed, and the value is the text after `=`,
trimmed, with everything from the first `/` on removed, trimmed, stripped
of surrounding single quotes and trimmed again. -/
def parseRecord (line : List Char) : Option (String × String) :=
  if ("END".data).isPrefixOf line then none
  else if line.contains '=' then
    let key := line.takeWhile (· ≠ '=')
    let valuePart := (line.dropWhile (· ≠ '=')).tail
    some (⟨trimSpace key⟩,
      ⟨trimSpace (trimBy isQuoteChar (trimSpace (stripComment (trimSpace valuePart))))⟩)
  else none

/-- Trim trailing characters satisfying `p`; `trimBy p` is definitionally
`trimTrailing p ∘ List.dropWhile p`. -/
def trimTrailing (p : Char → Bool) (l : List Char) : List Char :=
  (l.reverse.dropWhile p).reverse

/-- The per-record parse exactly as the specification words it: the value
is the substring after `=` "with everything from the first `/` onward
removed, then trimmed, then stripped of surrounding single quotes, then
trimmed again" — with no initial trim of the raw value, unlike the source,
which trims it first.  Stated only to be compared with `parseRecord`. -/
def parseRecordSpec (line : List Char) : Option (String × String) :=
  if ("END".data).isPrefixOf line then none
  else if line.contains '=' then
    let key := line.takeWhile (· ≠ '=')
    let valuePart := (line.dropWhile (· ≠ '=')).tail
    some (⟨trimSpace key⟩,
      ⟨trimSpace (trimBy isQuoteChar (trimSpace (stripComment valuePart)))⟩)
  else none

/-- One loop iteration: store the parsed pair (overwriting any earlier
binding of the key), or leave the map unchanged for a skipped record. -/
def processRecord (m : HeaderMap) (line : List Char) : HeaderMap :=
  match parseRecord line with
  | none => m
  | some (k, v) => (k, v) :: m

/-- The metadata reader: fold the per-record step over the fixed-width
records of the stream, starting from the empty map (lines 77–121). -/
def readHeader (s : List Char) : HeaderMap :=
  (readRecords s).foldl processRecord ([] : HeaderMap)

/-! ## Numeric extraction (lines 123–190 of `result.go`) -/

/-- Extraction of one WCS parameter, the pattern of lines 130–170: the
parsed value of the key if present and parsable, otherwise the zero value
the Go local variable keeps. -/
def getF (hdr : HeaderMap) (k : String) : ℚ :=
  match hdr.find k with
  | some v => (parseFloat v).getD 0
  | none => 0

def crval1 (hdr : HeaderMap) : ℚ := getF hdr "CRVAL1"

def crval2 (hdr : HeaderMap) : ℚ := getF hdr "CRVAL2"

def crpix1 (hdr : HeaderMap) : ℚ := getF hdr "CRPIX1"

def crpix2 (hdr : HeaderMap) : ℚ := getF hdr "CRPIX2"

def cd11 (hdr : HeaderMap) : ℚ := getF hdr "CD1_1"

def cd12 (hdr : HeaderMap) : ℚ := getF hdr "CD1_2"

def cd21 (hdr : HeaderMap) : ℚ := getF hdr "CD2_1"

def cd22 (hdr : HeaderMap) : ℚ := getF hdr "CD2_2"

/-- Lines 130–135: `hasWCS` is set exactly when `CRVAL1` is present and
parses as a float. -/
def hasWCS (hdr : HeaderMap) : Bool :=
  match hdr.find "CRVAL1" with
  | some v => (parseFloat v).isSome
  | none => false

/-- Image-dimension extraction, lines 172–190: the first key if present
(zero when present but unparsable — the `else if` is not reached then),
otherwise the second key if present and parsable, otherwise zero. -/
def extractDim (hdr : HeaderMap) (k1 k2 : String) : ℚ :=
  match hdr.find k1 with
  | some v => (parseFloat v).getD 0
  | none =>
    match hdr.find k2 with
    | some v => (parseFloat v).getD 0
    | none => 0

def imageW (hdr : HeaderMap) : ℚ := extractDim hdr "IMAGEW" "NAXIS1"

def imageH (hdr : HeaderMap) : ℚ := extractDim hdr "IMAGEH" "NAXIS2"

/-- The branch condition of line 195: `hasWCS && imageW > 0 && imageH > 0`. -/
def takesPrimary (hdr : HeaderMap) : Bool :=
  hasWCS hdr && decide (0 < imageW hdr) && decide (0 < imageH hdr)

/-- The local helper `abs` of `result.go` (lines 281–287). -/
def goAbs (x : ℚ) : ℚ :=
  if x < 0 then -x else x

/-! ## The coordinate transform engine (lines 192–278 of `result.go`) -/

/-- `atan2 y x`, modelling Go `math.Atan2`: the argument of the complex
number `x + y*i`, in `(-π, π]`. -/
noncomputable def atan2 (y x : ℝ) : ℝ :=
  Complex.arg ⟨x, y⟩

/-- The value computed by the two normalization loops of lines 224–229:
the representative of `x` modulo 360 in `[0, 360)`.  The loops repeatedly
add 360 while negative, then repeatedly subtract 360 while `≥ 360`; the
theorem `normSteps_wcsNormalize` below proves that this closed form is
exactly what those loops compute. -/
noncomputable def wcsNormalize (x : ℝ) : ℝ :=
  x - 360 * ⌊x / 360⌋

/-- Small-step semantics of the two normalization loops of lines 224–229:
`NormSteps x y` holds when starting from `x`, repeatedly adding 360 while
the value is negative and subtracting 360 while it is `≥ 360` stops at
`y`. -/
inductive NormSteps : ℝ → ℝ → Prop where
  | done : ∀ x : ℝ, 0 ≤ x → x < 360 → NormSteps x x
  | up : ∀ x y : ℝ, x < 0 → NormSteps (x + 360) y → NormSteps x y
  | down : ∀ x y : ℝ, 360 ≤ x → NormSteps (x - 360) y → NormSteps x y

/-- Lines 209 and 232: `result.RA`. On the primary path
`crval1 + (cd11*dx + cd12*dy)` with `dx = imageW/2 - crpix1` and
`dy = imageH/2 - crpix2`; on the fallback path `crval1` directly.
Both branches are exact rational arithmetic. -/
def raVal (hdr : HeaderMap) : ℚ :=
  if takesPrimary hdr then
    crval1 hdr +
      (cd11 hdr * (imageW hdr / 2 - crpix1 hdr) + cd12 hdr * (imageH hdr / 2 - crpix2 hdr))
  else crval1 hdr

/-- Lines 210 and 233: `result.Dec`. -/
def decVal (hdr : HeaderMap) : ℚ :=
  if takesPrimary hdr then
    crval2 hdr +
      (cd21 hdr * (imageW hdr / 2 - crpix1 hdr) + cd22 hdr * (imageH hdr / 2 - crpix2 hdr))
  else crval2 hdr

/-- Lines 214–215 and 236–238: `result.PixelScale`.  Primary path:
`sqrt(cd11*cd11 + cd21*cd21) * 3600`; fallback path: `abs(cd11) * 3600`
when `cd11 ≠ 0`, else the zero default. -/
noncomputable def pixelScaleVal (hdr : HeaderMap) : ℝ :=
  if takesPrimary hdr then
    Real.sqrt ((cd11 hdr : ℝ) * (cd11 hdr : ℝ) + (cd21 hdr : ℝ) * (cd21 hdr : ℝ)) * 3600
  else if cd11 hdr ≠ 0 then (goAbs (cd11 hdr) : ℝ) * 3600
  else 0

/-- Lines 220–229 and 241–245: `result.Rotation`.  Primary path:
`180 - atan2(cd12, cd11) * 180/π` pushed through the normalization loops;
fallback path: the raw parsed `CROTA2` value if present and parsable,
else the zero default — no normalization. -/
noncomputable def rotationVal (hdr : HeaderMap) : ℝ :=
  if takesPrimary hdr then
    wcsNormalize (180 - atan2 (cd12 hdr : ℝ) (cd11 hdr : ℝ) * 180 / Real.pi)
  else
    match hdr.find "CROTA2" with
    | some v =>
      match parseFloat v with
      | some q => (q : ℝ)
      | none => 0
    | none => 0

/-- Lines 250–254 and 262–266: `result.FieldWidth`.  First set from
`IMAGEW` when it parses and the pixel scale is positive; then
unconditionally overwritten from `NAXIS1` under the same conditions
(last-write-wins). -/
noncomputable def fieldWidthVal (hdr : HeaderMap) : ℝ :=
  let ps := pixelScaleVal hdr
  let fw1 : ℝ :=
    match hdr.find "IMAGEW" with
    | some v =>
      match parseFloat v with
      | some w => if 0 < ps then (w : ℝ) * ps / 3600 else 0
      | none => 0
    | none => 0
  match hdr.find "NAXIS1" with
  | some v =>
    match parseFloat v with
    | some w => if 0 < ps then (w : ℝ) * ps / 3600 else fw1
    | none => fw1
  | none => fw1

/-- Lines 255–259 and 267–271: `result.FieldHeight`, symmetric to
`fieldWidthVal` with `IMAGEH`/`NAXIS2`. -/
noncomputable def fieldHeightVal (hdr : HeaderMap) : ℝ :=
  let ps := pixelScaleVal hdr
  let fh1 : ℝ :=
    match hdr.find "IMAGEH" with
    | some v =>
      match parseFloat v with
      | some h => if 0 < ps then (h : ℝ) * ps / 3600 else 0
      | none => 0
    | none => 0
  match hdr.find "NAXIS2" with
  | some v =>
    match parseFloat v with
    | some h => if 0 < ps then (h : ℝ) * ps / 3600 else fh1
    | none => fh1
  | none => fh1

/-- The `Result` struct of `result.go` (the fields this core produces;
`OutputFiles`, `SolveTime` and `RawOutput` are filled in by the
orchestration layer, not by the parser). -/
structure Result where
  solved : Bool
  ra : ℝ
  dec : ℝ
  pixelScale : ℝ
  rotation : ℝ
  fieldWidth : ℝ
  fieldHeight : ℝ
  wcsHeader : HeaderMap

/-- The `result` value as it stands at line 273, just before the final
validation: `Solved` set unconditionally at construction (line 78), every
numeric field as computed by the branch that ran. -/
noncomputable def computeResult (hdr : HeaderMap) : Result :=
  { solved := true
    ra := (raVal hdr : ℝ)
    dec := (decVal hdr : ℝ)
    pixelScale := pixelScaleVal hdr
    rotation := rotationVal hdr
    fieldWidth := fieldWidthVal hdr
    fieldHeight := fieldHeightVal hdr
    wcsHeader := hdr }

/-- The two error kinds `ParseWCSFile` can return: a failed `os.Open`
(line 71) and the final validation failure `ErrWCSParseFailed`
(line 275). -/
inductive WCSError where
  | ioFailure : WCSError
  | parseFailed : WCSError
deriving DecidableEq

open Classical in
/-- Lines 273–278: return the distinct "WCS parse failed" error when RA,
Dec and PixelScale are all zero, otherwise the computed result. -/
noncomputable def parseWCS (hdr : HeaderMap) : Except WCSError Result :=
  if (computeResult hdr).ra = 0 ∧ (computeResult hdr).dec = 0 ∧
      (computeResult hdr).pixelScale = 0 then
    Except.error WCSError.parseFailed
  else Except.ok (computeResult hdr)

/-- `ParseWCSFile` end to end: `none` models a path whose stream cannot be
opened (the `os.Open` error of lines 69–72); `some s` is the byte stream
of the file. -/
noncomputable def ParseWCSFile (file : Option (List Char)) : Except WCSError Result :=
  match file with
  | none => Except.error WCSError.ioFailure
  | some s => parseWCS (readHeader s)

/-! ## Concrete inputs used to instantiate the theorems -/

/-- A FITS header record: the text padded with spaces to 80 characters. -/
def pad80 (s : String) : List Char :=
  s.data ++ List.replicate (80 - s.data.length) ' '

/-- A header with `CRVAL1` and positive image dimensions: the primary
path applies. -/
def hdrW1 : HeaderMap :=
  [("CRVAL1", "83.423"), ("CRPIX1", "3000"), ("CD1_1", "-0.0010995"),
   ("IMAGEW", "6000"), ("IMAGEH", "4000")]

/-- A header with only `CRVAL1`: fallback path, nonzero RA. -/
def hdrW2 : HeaderMap := [("CRVAL1", "10")]

/-- A header missing `CRVAL2` on which the primary path nevertheless runs
and applies a nonzero offset to `CRVAL1`. -/
def hdrW4cex : HeaderMap :=
  [("CRVAL1", "10"), ("CRPIX1", "0"), ("CRPIX2", "0"), ("CD1_1", "1"),
   ("IMAGEW", "4"), ("IMAGEH", "4")]

/-- A header with only `CRVAL2`: fallback path. -/
def hdrW4 : HeaderMap := [("CRVAL2", "5")]

/-- A header with only `CROTA2` (negative): fallback path, raw rotation. -/
def hdrW5 : HeaderMap := [("CROTA2", "-30")]

/-- A header exercising the last-write-wins field-dimension derivation on
the fallback path (`CD1_1` gives a positive pixel scale). -/
def hdrW7 : HeaderMap :=
  [("CD1_1", "1"), ("IMAGEW", "100"), ("NAXIS1", "50"),
   ("IMAGEH", "80"), ("NAXIS2", "40")]

/-- A byte stream holding one well-formed `CRVAL1` record. -/
def streamW10 : List Char := pad80 "CRVAL1  = 10"

/-! # Theorems

First the supporting lemmas shared between the claims, then one theorem
per claim (with its witness or counterexample). -/

/-! ## The read loop -/

theorem readRecordsAux_congr :
    ∀ (f₁ f₂ : ℕ) (s : List Char), s.length ≤ f₁ → s.length ≤ f₂ →
      readRecordsAux f₁ s = readRecordsAux f₂ s := by
  intro f₁
  induction f₁ with
  | zero =>
    intro f₂ s h₁ _
    have hs : s = [] := List.eq_nil_of_length_eq_zero (Nat.le_zero.mp h₁)
    subst hs
    cases f₂ <;> simp [readRecordsAux]
  | succ f ih =>
    intro f₂ s h₁ h₂
    cases f₂ with
    | zero =>
      have hs : s = [] := List.eq_nil_of_length_eq_zero (Nat.le_zero.mp h₂)
      subst hs
      simp [readRecordsAux]
    | succ g =>
      simp only [readRecordsAux]
      by_cases hlen : s.length < 80
      · simp [hlen]
      · simp only [if_neg hlen]
        have hd : (s.drop 80).length = s.length - 80 := by simp
        congr 1
        exact ih g (s.drop 80) (by omega) (by omega)

/-- The loop equation of the read loop: stop on a short read, otherwise
take one 80-byte record and continue on the rest of the stream. -/
theorem readRecords_eq (s : List Char) :
    readRecords s = if s.length < 80 then [] else s.take 80 :: readRecords (s.drop 80) := by
  have h1 : readRecords s = readRecordsAux (s.length + 1) s :=
    readRecordsAux_congr s.length (s.length + 1) s le_rfl (Nat.le_succ _)
  rw [h1]
  simp only [readRecordsAux, readRecords]
  by_cases h : s.length < 80
  · simp [h]
  · simp only [if_neg h]
    have hd : (s.drop 80).length = s.length - 80 := by simp
    congr 1
    exact readRecordsAux_congr s.length (s.drop 80).length (s.drop 80) (by omega) le_rfl

theorem readRecords_length (s : List Char) : (readRecords s).length = s.length / 80 := by
  generalize hn : s.length = n
  induction n using Nat.strong_induction_on generalizing s with
  | _ n ih =>
    rw [readRecords_eq]
    by_cases h : s.length < 80
    · rw [if_pos h]
      simp only [List.length_nil]
      omega
    · rw [if_neg h, List.length_cons]
      have hd : (s.drop 80).length = s.length - 80 := by simp
      rw [ih (n - 80) (by omega) (s.drop 80) (by omega)]
      omega

theorem readRecords_all_80 (s : List Char) :
    ((readRecords s).all fun r => r.length == 80) = true := by
  generalize hn : s.length = n
  induction n using Nat.strong_induction_on generalizing s with
  | _ n ih =>
    rw [readRecords_eq]
    by_cases h : s.length < 80
    · simp [h]
    · rw [if_neg h, List.all_cons]
      have hd : (s.drop 80).length = s.length - 80 := by simp
      have h1 : (s.take 80).length = 80 := by simp; omega
      rw [ih (n - 80) (by omega) (s.drop 80) (by omega)]
      simp [h1]

/-! ## The per-record parse and the header map -/

theorem foldl_processRecord (recs : List (List Char)) (m : HeaderMap) :
    recs.foldl processRecord m = (recs.filterMap parseRecord).reverse ++ m := by
  induction recs generalizing m with
  | nil => simp
  | cons r rs ih =>
    simp only [List.foldl_cons, List.filterMap_cons]
    cases h : parseRecord r with
    | none => simp [processRecord, h, ih]
    | some p => simp [processRecord, h, ih]

theorem isSpaceChar_ne_slash {c : Char} (h : isSpaceChar c = true) : c ≠ '/' := by
  rintro rfl
  exact absurd h (by decide)

theorem trimTrailing_concat_pos {p : Char → Bool} {c : Char} (l : List Char)
    (h : p c = true) : trimTrailing p (l ++ [c]) = trimTrailing p l := by
  simp [trimTrailing, List.dropWhile_cons, h]

theorem trimTrailing_concat_neg {p : Char → Bool} {c : Char} (l : List Char)
    (h : p c = false) : trimTrailing p (l ++ [c]) = l ++ [c] := by
  simp [trimTrailing, List.dropWhile_cons, h]

theorem trimSpace_cons_space {c : Char} (l : List Char) (h : isSpaceChar c = true) :
    trimSpace (c :: l) = trimSpace l := by
  simp [trimSpace, trimBy, List.dropWhile_cons, h]

theorem trimSpace_concat_space {c : Char} (l : List Char) (h : isSpaceChar c = true) :
    trimSpace (l ++ [c]) = trimSpace l := by
  show trimTrailing isSpaceChar ((l ++ [c]).dropWhile isSpaceChar) =
    trimTrailing isSpaceChar (l.dropWhile isSpaceChar)
  rw [List.dropWhile_append]
  by_cases he : (l.dropWhile isSpaceChar).isEmpty = true
  · have h0 : l.dropWhile isSpaceChar = [] := by
      cases hcase : l.dropWhile isSpaceChar with
      | nil => rfl
      | cons a as => rw [hcase] at he; simp at he
    rw [if_pos he, h0]
    simp [List.dropWhile_cons, h, trimTrailing]
  · rw [if_neg he]
    exact trimTrailing_concat_pos _ h

theorem trimSpace_stripComment_concat {c : Char} (l : List Char)
    (h : isSpaceChar c = true) :
    trimSpace (stripComment (l ++ [c])) = trimSpace (stripComment l) := by
  unfold stripComment
  rw [List.takeWhile_append]
  by_cases hl : (l.takeWhile fun x => decide (x ≠ '/')).length = l.length
  · rw [if_pos hl]
    have hself : (l.takeWhile fun x => decide (x ≠ '/')) = l :=
      (List.takeWhile_prefix _).eq_of_length hl
    have hc : (List.takeWhile (fun x => decide (x ≠ '/')) [c]) = [c] := by
      simp [List.takeWhile_cons, isSpaceChar_ne_slash h]
    rw [hc, hself, trimSpace_concat_space l h]
  · rw [if_neg hl]

theorem trimSpace_stripComment_dropWhile (v : List Char) :
    trimSpace (stripComment (v.dropWhile isSpaceChar)) = trimSpace (stripComment v) := by
  induction v with
  | nil => rfl
  | cons c v ih =>
    by_cases h : isSpaceChar c = true
    · have h1 : stripComment (c :: v) = c :: stripComment v := by
        simp [stripComment, List.takeWhile_cons, isSpaceChar_ne_slash h]
      rw [List.dropWhile_cons, if_pos h, ih, h1, trimSpace_cons_space _ h]
    · rw [List.dropWhile_cons, if_neg h]

theorem trimSpace_stripComment_trimTrailing (l : List Char) :
    trimSpace (stripComment (trimTrailing isSpaceChar l)) = trimSpace (stripComment l) := by
  induction l using List.reverseRecOn with
  | nil => rfl
  | append_singleton ys c ih =>
    by_cases h : isSpaceChar c = true
    · rw [trimTrailing_concat_pos ys h, ih, trimSpace_stripComment_concat ys h]
    · rw [trimTrailing_concat_neg ys (Bool.not_eq_true _ ▸ h)]

/-- The source trims the raw value before cutting the comment; the
specification cuts first.  The two pipelines agree on every input. -/
theorem trimSpace_stripComment_trimSpace (v : List Char) :
    trimSpace (stripComment (trimSpace v)) = trimSpace (stripComment v) := by
  have h1 : trimSpace v = trimTrailing isSpaceChar (v.dropWhile isSpaceChar) := rfl
  rw [h1, trimSpace_stripComment_trimTrailing, trimSpace_stripComment_dropWhile]

theorem parseRecord_eq_spec (line : List Char) : parseRecord line = parseRecordSpec line := by
  unfold parseRecord parseRecordSpec
  by_cases h1 : ("END".data).isPrefixOf line
  · simp [h1]
  · by_cases h2 : ('=' ∈ line)
    · simp [h1, h2, trimSpace_stripComment_trimSpace]
    · simp [h1, h2]

/-! ## The rotation normalization loops -/

theorem wcsNormalize_nonneg (x : ℝ) : 0 ≤ wcsNormalize x := by
  have h : ((⌊x / 360⌋ : ℤ) : ℝ) ≤ x / 360 := Int.floor_le _
  unfold wcsNormalize
  linarith

theorem wcsNormalize_lt (x : ℝ) : wcsNormalize x < 360 := by
  have h : x / 360 < (⌊x / 360⌋ : ℝ) + 1 := Int.lt_floor_add_one _
  unfold wcsNormalize
  linarith

theorem wcsNormalize_add_360 (x : ℝ) : wcsNormalize (x + 360) = wcsNormalize x := by
  have h1 : (x + 360) / 360 = x / 360 + 1 := by ring
  unfold wcsNormalize
  rw [h1, Int.floor_add_one]
  push_cast
  ring

theorem wcsNormalize_sub_360 (x : ℝ) : wcsNormalize (x - 360) = wcsNormalize x := by
  have h1 : (x - 360) / 360 = x / 360 - ((1 : ℤ) : ℝ) := by push_cast; ring
  unfold wcsNormalize
  rw [h1, Int.floor_sub_int]
  push_cast
  ring

theorem wcsNormalize_eq_self {x : ℝ} (h0 : 0 ≤ x) (h1 : x < 360) : wcsNormalize x = x := by
  have hf : ⌊x / 360⌋ = 0 := by
    apply Int.floor_eq_zero_iff.mpr
    constructor
    · exact div_nonneg h0 (by norm_num)
    · exact (div_lt_one (by norm_num)).mpr h1
  unfold wcsNormalize
  rw [hf]
  push_cast
  ring

/-- The closed form `wcsNormalize` is exactly what the two loops of lines
224–229 compute: repeatedly adding 360 while negative and subtracting 360
while `≥ 360` terminates at `wcsNormalize x`. -/
theorem normSteps_wcsNormalize (x : ℝ) : NormSteps x (wcsNormalize x) := by
  suffices main : ∀ (n : ℕ) (y : ℝ), (⌊y / 360⌋).natAbs = n → NormSteps y (wcsNormalize y) from
    main (⌊x / 360⌋).natAbs x rfl
  intro n
  induction n with
  | zero =>
    intro y hy
    have h0 : ⌊y / 360⌋ = 0 := Int.natAbs_eq_zero.mp hy
    have hIco := Int.floor_eq_zero_iff.mp h0
    have hy0 : 0 ≤ y := by
      have h2 : (0 : ℝ) ≤ y / 360 := hIco.1
      linarith
    have hy1 : y < 360 := by
      have h2 : y / 360 < 1 := hIco.2
      linarith
    rw [wcsNormalize_eq_self hy0 hy1]
    exact NormSteps.done y hy0 hy1
  | succ n ih =>
    intro y hy
    rcases lt_trichotomy (⌊y / 360⌋) 0 with hneg | hzero | hpos
    · have hyneg : y < 0 := by
        by_contra hcon
        push_neg at hcon
        have h2 : (0 : ℝ) ≤ y / 360 := div_nonneg hcon (by norm_num)
        have h3 := Int.floor_nonneg.mpr h2
        omega
      have hfl : ⌊(y + 360) / 360⌋ = ⌊y / 360⌋ + 1 := by
        rw [show (y + 360) / 360 = y / 360 + 1 by ring, Int.floor_add_one]
      refine NormSteps.up y _ hyneg ?_
      rw [← wcsNormalize_add_360 y]
      apply ih
      rw [hfl]
      omega
    · rw [hzero] at hy
      simp at hy
    · have hy360 : 360 ≤ y := by
        have h1 : (1 : ℤ) ≤ ⌊y / 360⌋ := hpos
        have h2 : ((⌊y / 360⌋ : ℤ) : ℝ) ≤ y / 360 := Int.floor_le _
        have h3 : (1 : ℝ) ≤ ((⌊y / 360⌋ : ℤ) : ℝ) := by exact_mod_cast h1
        linarith
      have hfl : ⌊(y - 360) / 360⌋ = ⌊y / 360⌋ - 1 := by
        rw [show (y - 360) / 360 = y / 360 - ((1 : ℤ) : ℝ) by push_cast; ring,
          Int.floor_sub_int]
      refine NormSteps.down y _ hy360 ?_
      rw [← wcsNormalize_sub_360 y]
      apply ih
      rw [hfl]
      omega

/-! ## Transform-engine helpers -/

theorem goAbs_nonneg (x : ℚ) : 0 ≤ goAbs x := by
  unfold goAbs
  split <;> linarith

theorem pixelScaleVal_nonneg (hdr : HeaderMap) : 0 ≤ pixelScaleVal hdr := by
  unfold pixelScaleVal
  split
  · positivity
  · split
    · have h : (0 : ℝ) ≤ ((goAbs (cd11 hdr) : ℚ) : ℝ) := by
        exact_mod_cast goAbs_nonneg (cd11 hdr)
      linarith
    · exact le_refl 0

theorem hasWCS_iff (hdr : HeaderMap) :
    hasWCS hdr = true ↔
      ∃ v, hdr.find "CRVAL1" = some v ∧ (parseFloat v).isSome = true := by
  unfold hasWCS
  cases h : hdr.find "CRVAL1" with
  | none => simp
  | some v => simp

theorem takesPrimary_iff (hdr : HeaderMap) :
    takesPrimary hdr = true ↔
      (∃ v, hdr.find "CRVAL1" = some v ∧ (parseFloat v).isSome = true) ∧
        0 < imageW hdr ∧ 0 < imageH hdr := by
  unfold takesPrimary
  rw [Bool.and_eq_true, Bool.and_eq_true, hasWCS_iff]
  simp [and_assoc]

theorem parseWCS_eq_of_zero {hdr : HeaderMap}
    (h : (computeResult hdr).ra = 0 ∧ (computeResult hdr).dec = 0 ∧
      (computeResult hdr).pixelScale = 0) :
    parseWCS hdr = Except.error WCSError.parseFailed := by
  unfold parseWCS
  exact if_pos h

theorem parseWCS_eq_of_nonzero {hdr : HeaderMap}
    (h : ¬((computeResult hdr).ra = 0 ∧ (computeResult hdr).dec = 0 ∧
      (computeResult hdr).pixelScale = 0)) :
    parseWCS hdr = Except.ok (computeResult hdr) := by
  unfold parseWCS
  exact if_neg h

theorem parseWCS_ok_elim {hdr : HeaderMap} {r : Result}
    (h : parseWCS hdr = Except.ok r) :
    r = computeResult hdr ∧
      ¬((computeResult hdr).ra = 0 ∧ (computeResult hdr).dec = 0 ∧
        (computeResult hdr).pixelScale = 0) := by
  unfold parseWCS at h
  by_cases hc : (computeResult hdr).ra = 0 ∧ (computeResult hdr).dec = 0 ∧
      (computeResult hdr).pixelScale = 0
  · rw [if_pos hc] at h
    exact absurd h (by simp)
  · rw [if_neg hc] at h
    exact ⟨(Except.ok.inj h).symm, hc⟩

/-! ## The claims -/

set_option maxRecDepth 10000

attribute [local semireducible] Rat.add Rat.mul Rat.inv Rat.sub

/-- C1: for every header map where `CRVAL1` is present and parses as a
float and both extracted image dimensions are strictly positive, the
primary path is taken and the result has
`RA = crval1 + cd11*(imageW/2 - crpix1) + cd12*(imageH/2 - crpix2)`,
`Dec = crval2 + cd21*(imageW/2 - crpix1) + cd22*(imageH/2 - crpix2)` and
`PixelScale = sqrt(cd11^2 + cd21^2) * 3600`, where each `cd`/`crpix`/
`crval` value is the parsed header value or 0 when absent or unparsable
(that silent-zero policy is the definition of `getF`). -/
theorem c1_primary_transform (hdr : HeaderMap) (v : String) (q : ℚ)
    (hfind : hdr.find "CRVAL1" = some v) (hparse : parseFloat v = some q)
    (hw : 0 < imageW hdr) (hh : 0 < imageH hdr) :
    takesPrimary hdr = true ∧
    (computeResult hdr).ra =
      (crval1 hdr : ℝ) + (cd11 hdr : ℝ) * ((imageW hdr : ℝ) / 2 - (crpix1 hdr : ℝ)) +
        (cd12 hdr : ℝ) * ((imageH hdr : ℝ) / 2 - (crpix2 hdr : ℝ)) ∧
    (computeResult hdr).dec =
      (crval2 hdr : ℝ) + (cd21 hdr : ℝ) * ((imageW hdr : ℝ) / 2 - (crpix1 hdr : ℝ)) +
        (cd22 hdr : ℝ) * ((imageH hdr : ℝ) / 2 - (crpix2 hdr : ℝ)) ∧
    (computeResult hdr).pixelScale =
      Real.sqrt ((cd11 hdr : ℝ) ^ 2 + (cd21 hdr : ℝ) ^ 2) * 3600 := by
  have hW : hasWCS hdr = true := by
    unfold hasWCS
    rw [hfind]
    simp [hparse]
  have htp : takesPrimary hdr = true := by
    unfold takesPrimary
    rw [hW]
    simp [hw, hh]
  refine ⟨htp, ?_, ?_, ?_⟩
  · simp only [computeResult]
    rw [raVal, if_pos htp]
    push_cast
    ring
  · simp only [computeResult]
    rw [decVal, if_pos htp]
    push_cast
    ring
  · simp only [computeResult]
    rw [pixelScaleVal, if_pos htp,
      show (cd11 hdr : ℝ) * (cd11 hdr : ℝ) + (cd21 hdr : ℝ) * (cd21 hdr : ℝ)
        = (cd11 hdr : ℝ) ^ 2 + (cd21 hdr : ℝ) ^ 2 by ring]

/-- C1 instantiated at a concrete header with `CRVAL1 = 83.423`,
`IMAGEW = 6000` and `IMAGEH = 4000`. -/
theorem c1_primary_transform_witness :
    takesPrimary hdrW1 = true ∧
    (computeResult hdrW1).ra =
      (crval1 hdrW1 : ℝ) + (cd11 hdrW1 : ℝ) * ((imageW hdrW1 : ℝ) / 2 - (crpix1 hdrW1 : ℝ)) +
        (cd12 hdrW1 : ℝ) * ((imageH hdrW1 : ℝ) / 2 - (crpix2 hdrW1 : ℝ)) ∧
    (computeResult hdrW1).dec =
      (crval2 hdrW1 : ℝ) + (cd21 hdrW1 : ℝ) * ((imageW hdrW1 : ℝ) / 2 - (crpix1 hdrW1 : ℝ)) +
        (cd22 hdrW1 : ℝ) * ((imageH hdrW1 : ℝ) / 2 - (crpix2 hdrW1 : ℝ)) ∧
    (computeResult hdrW1).pixelScale =
      Real.sqrt ((cd11 hdrW1 : ℝ) ^ 2 + (cd21 hdrW1 : ℝ) ^ 2) * 3600 :=
  c1_primary_transform hdrW1 "83.423" (83423 / 1000) (by decide) (by decide) (by decide)
    (by decide)

/-- C2: after the header is read, `ParseWCSFile` returns the distinct
"WCS parse failed" error exactly when the computed RA, Dec and PixelScale
are all zero; equivalently, every successfully returned `Result` has RA,
Dec and PixelScale not all simultaneously zero. -/
theorem c2_final_validation (hdr : HeaderMap) :
    (parseWCS hdr = Except.error WCSError.parseFailed ↔
      (computeResult hdr).ra = 0 ∧ (computeResult hdr).dec = 0 ∧
        (computeResult hdr).pixelScale = 0) ∧
    ∀ r : Result, parseWCS hdr = Except.ok r →
      ¬(r.ra = 0 ∧ r.dec = 0 ∧ r.pixelScale = 0) := by
  constructor
  · constructor
    · intro h
      by_contra hc
      rw [parseWCS_eq_of_nonzero hc] at h
      exact absurd h (by simp)
    · exact parseWCS_eq_of_zero
  · intro r h
    obtain ⟨hr, hc⟩ := parseWCS_ok_elim h
    rw [hr]
    exact hc

/-- C2 instantiated at a concrete header with only `CRVAL1 = 10`. -/
theorem c2_final_validation_witness :
    (parseWCS hdrW2 = Except.error WCSError.parseFailed ↔
      (computeResult hdrW2).ra = 0 ∧ (computeResult hdrW2).dec = 0 ∧
        (computeResult hdrW2).pixelScale = 0) ∧
    ∀ r : Result, parseWCS hdrW2 = Except.ok r →
      ¬(r.ra = 0 ∧ r.dec = 0 ∧ r.pixelScale = 0) :=
  c2_final_validation hdrW2

/-- C3: the primary (full-matrix) path is taken exactly when `CRVAL1` is
present and parses as a float and both extracted image dimensions are
strictly positive; moreover the chosen path depends only on the `CRVAL1`
entry and the extracted dimensions, so absence or unparsability of
`CRVAL2`, `CRPIX1`, `CRPIX2` or any `CD` key does not by itself cause the
fallback to run. -/
theorem c3_crval1_gate (hdr : HeaderMap) :
    (takesPrimary hdr = true ↔
      (∃ v, hdr.find "CRVAL1" = some v ∧ (parseFloat v).isSome = true) ∧
        0 < imageW hdr ∧ 0 < imageH hdr) ∧
    (∀ hdr2 : HeaderMap, hdr2.find "CRVAL1" = hdr.find "CRVAL1" →
      imageW hdr2 = imageW hdr → imageH hdr2 = imageH hdr →
      takesPrimary hdr2 = takesPrimary hdr) := by
  refine ⟨takesPrimary_iff hdr, ?_⟩
  intro hdr2 h1 h2 h3
  unfold takesPrimary hasWCS
  rw [h1, h2, h3]

/-- C3 instantiated at a concrete header on the primary path. -/
theorem c3_crval1_gate_witness :
    (takesPrimary hdrW1 = true ↔
      (∃ v, hdrW1.find "CRVAL1" = some v ∧ (parseFloat v).isSome = true) ∧
        0 < imageW hdrW1 ∧ 0 < imageH hdrW1) ∧
    (∀ hdr2 : HeaderMap, hdr2.find "CRVAL1" = hdrW1.find "CRVAL1" →
      imageW hdr2 = imageW hdrW1 → imageH hdr2 = imageH hdrW1 →
      takesPrimary hdr2 = takesPrimary hdrW1) :=
  c3_crval1_gate hdrW1

/-- C4 as stated is false on the code: this header is missing `CRVAL2`,
yet the primary path runs (because `CRVAL1` parses and the dimensions are
positive) and the returned RA is `12`, not the extracted `CRVAL1 = 10` —
so "missing CRVAL2 implies the fallback runs with RA = CRVAL1" fails. -/
theorem c4_counterexample :
    hdrW4cex.find "CRVAL2" = none ∧
    takesPrimary hdrW4cex = true ∧
    (computeResult hdrW4cex).ra = 12 ∧
    (crval1 hdrW4cex : ℝ) = 10 := by
  have h3 : raVal hdrW4cex = 12 := by decide
  have h4 : crval1 hdrW4cex = 10 := by decide
  refine ⟨by decide, by decide, ?_, ?_⟩
  · simp only [computeResult]
    rw [h3]
    norm_num
  · rw [h4]
    norm_num

/-- C4 (amended): for every header map where `CRVAL1` is absent or
unparsable, or an extracted image dimension is not strictly positive, the
fallback path runs and the result has exactly `RA = crval1` and
`Dec = crval2` (the extracted values), with no pixel-to-sky offset. -/
theorem c4_fallback_identity (hdr : HeaderMap)
    (h : hasWCS hdr = false ∨ ¬(0 < imageW hdr) ∨ ¬(0 < imageH hdr)) :
    takesPrimary hdr = false ∧
    (computeResult hdr).ra = (crval1 hdr : ℝ) ∧
    (computeResult hdr).dec = (crval2 hdr : ℝ) := by
  have htp : takesPrimary hdr = false := by
    unfold takesPrimary
    rcases h with h | h | h <;> simp [h]
  refine ⟨htp, ?_, ?_⟩
  · simp only [computeResult]
    rw [raVal]
    simp [htp]
  · simp only [computeResult]
    rw [decVal]
    simp [htp]

/-- C4 (amended) instantiated at a concrete header missing `CRVAL1`. -/
theorem c4_fallback_identity_witness :
    takesPrimary hdrW4 = false ∧
    (computeResult hdrW4).ra = (crval1 hdrW4 : ℝ) ∧
    (computeResult hdrW4).dec = (crval2 hdrW4 : ℝ) :=
  c4_fallback_identity hdrW4 (Or.inl (by decide))

/-- C5: on the primary path the rotation is
`180 - degrees(atan2(cd12, cd11))` pushed through the repeated
add/subtract-360 loops (`NormSteps` is the loop semantics) and lies in
`[0, 360)`; on the fallback path the rotation is either 0 or exactly the
raw parsed `CROTA2` value, with no normalization. -/
theorem c5_rotation (hdr : HeaderMap) :
    (takesPrimary hdr = true →
      NormSteps (180 - atan2 (cd12 hdr : ℝ) (cd11 hdr : ℝ) * 180 / Real.pi)
          ((computeResult hdr).rotation) ∧
        0 ≤ (computeResult hdr).rotation ∧ (computeResult hdr).rotation < 360) ∧
    (takesPrimary hdr = false →
      (computeResult hdr).rotation = 0 ∨
        ∃ v q, hdr.find "CROTA2" = some v ∧ parseFloat v = some q ∧
          (computeResult hdr).rotation = (q : ℝ)) := by
  constructor
  · intro htp
    have hrot : (computeResult hdr).rotation =
        wcsNormalize (180 - atan2 (cd12 hdr : ℝ) (cd11 hdr : ℝ) * 180 / Real.pi) := by
      simp only [computeResult]
      rw [rotationVal, if_pos htp]
    rw [hrot]
    exact ⟨normSteps_wcsNormalize _, wcsNormalize_nonneg _, wcsNormalize_lt _⟩
  · intro htp
    cases hf : hdr.find "CROTA2" with
    | none =>
      left
      simp only [computeResult]
      rw [rotationVal]
      simp [htp, hf]
    | some v =>
      cases hp : parseFloat v with
      | none =>
        left
        simp only [computeResult]
        rw [rotationVal]
        simp [htp, hf, hp]
      | some q =>
        right
        refine ⟨v, q, rfl, hp, ?_⟩
        simp only [computeResult]
        rw [rotationVal]
        simp [htp, hf, hp]

/-- C5 instantiated at a concrete fallback header with `CROTA2 = -30`. -/
theorem c5_rotation_witness :
    (takesPrimary hdrW5 = true →
      NormSteps (180 - atan2 (cd12 hdrW5 : ℝ) (cd11 hdrW5 : ℝ) * 180 / Real.pi)
          ((computeResult hdrW5).rotation) ∧
        0 ≤ (computeResult hdrW5).rotation ∧ (computeResult hdrW5).rotation < 360) ∧
    (takesPrimary hdrW5 = false →
      (computeResult hdrW5).rotation = 0 ∨
        ∃ v q, hdrW5.find "CROTA2" = some v ∧ parseFloat v = some q ∧
          (computeResult hdrW5).rotation = (q : ℝ)) :=
  c5_rotation hdrW5

/-- C6: the metadata reader consumes consecutive full 80-byte records
until a short read (`readRecords` yields `length / 80` records of exactly
80 bytes each); each record is handled by `parseRecord` — records
beginning with `END` or lacking `=` are skipped, otherwise the key is the
text before the first `=` trimmed of whitespace and the value is the text
after `=` with everything from the first `/` onward removed, trimmed,
stripped of surrounding single quotes and trimmed again (`parseRecord`
agrees with the specification's ordering of those steps,
`parseRecordSpec`); and lookup in the resulting header map returns the
value of the last record bearing the key, so a later duplicate overwrites
an earlier one. -/
theorem c6_metadata_reader (s : List Char) (k : String) :
    (readRecords s).length = s.length / 80 ∧
    ((readRecords s).all fun r => r.length == 80) = true ∧
    (∀ line : List Char, parseRecord line = parseRecordSpec line) ∧
    (readHeader s).find k =
      ((((readRecords s).filterMap parseRecord).reverse.find? fun p => p.1 == k).map
        Prod.snd) := by
  refine ⟨readRecords_length s, readRecords_all_80 s, parseRecord_eq_spec, ?_⟩
  unfold readHeader
  rw [foldl_processRecord]
  simp [HeaderMap.find]

/-- C7: when PixelScale ends up strictly positive and `IMAGEW`, `NAXIS1`,
`IMAGEH` and `NAXIS2` are all present and parse, the field dimensions are
derived from the NAXIS values (`FieldWidth = naxis1 * pixelScale / 3600`,
last-write-wins over the IMAGEW-derived value, and symmetrically for the
height); when PixelScale is zero or negative both field dimensions remain
zero. -/
theorem c7_field_dimensions (hdr : HeaderMap)
    (vw : String) (qw : ℚ) (vn : String) (qn : ℚ)
    (vh : String) (qh : ℚ) (vm : String) (qm : ℚ)
    (hw1 : hdr.find "IMAGEW" = some vw) (hw2 : parseFloat vw = some qw)
    (hn1 : hdr.find "NAXIS1" = some vn) (hn2 : parseFloat vn = some qn)
    (hh1 : hdr.find "IMAGEH" = some vh) (hh2 : parseFloat vh = some qh)
    (hm1 : hdr.find "NAXIS2" = some vm) (hm2 : parseFloat vm = some qm) :
    (0 < (computeResult hdr).pixelScale →
      (computeResult hdr).fieldWidth = (qn : ℝ) * (computeResult hdr).pixelScale / 3600 ∧
        (computeResult hdr).fieldHeight = (qm : ℝ) * (computeResult hdr).pixelScale / 3600) ∧
    ((computeResult hdr).pixelScale ≤ 0 →
      (computeResult hdr).fieldWidth = 0 ∧ (computeResult hdr).fieldHeight = 0) := by
  constructor
  · intro hps
    simp only [computeResult] at hps ⊢
    constructor
    · simp only [fieldWidthVal, hn1, hn2, hw1, hw2]
      rw [if_pos hps]
    · simp only [fieldHeightVal, hm1, hm2, hh1, hh2]
      rw [if_pos hps]
  · intro hps
    have hnp : ¬(0 < pixelScaleVal hdr) := by
      simp only [computeResult] at hps
      exact not_lt.mpr hps
    simp only [computeResult]
    constructor
    · simp only [fieldWidthVal, hn1, hn2, hw1, hw2]
      rw [if_neg hnp, if_neg hnp]
    · simp only [fieldHeightVal, hm1, hm2, hh1, hh2]
      rw [if_neg hnp, if_neg hnp]

/-- C7 instantiated at a concrete fallback header with a positive pixel
scale and both dimension key pairs present. -/
theorem c7_field_dimensions_witness :
    (0 < (computeResult hdrW7).pixelScale →
      (computeResult hdrW7).fieldWidth =
          ((50 : ℚ) : ℝ) * (computeResult hdrW7).pixelScale / 3600 ∧
        (computeResult hdrW7).fieldHeight =
          ((40 : ℚ) : ℝ) * (computeResult hdrW7).pixelScale / 3600) ∧
    ((computeResult hdrW7).pixelScale ≤ 0 →
      (computeResult hdrW7).fieldWidth = 0 ∧ (computeResult hdrW7).fieldHeight = 0) :=
  c7_field_dimensions hdrW7 "100" 100 "50" 50 "80" 80 "40" 40 (by decide) (by decide)
    (by decide) (by decide) (by decide) (by decide) (by decide) (by decide)

/-- C8: a path whose stream cannot be opened yields no `Result` and the
I/O-failure error, which is a different error kind from "WCS parse
failed", so the caller can distinguish the two. -/
theorem c8_io_error_distinct :
    ParseWCSFile none = Except.error WCSError.ioFailure ∧
    WCSError.ioFailure ≠ WCSError.parseFailed :=
  ⟨rfl, by decide⟩

/-- C9: every `Result` successfully returned by the parser has a
PixelScale that is not strictly negative (a square root times 3600 on the
primary path; an absolute value times 3600 or the zero default on the
fallback path). -/
theorem c9_pixelscale_nonneg (hdr : HeaderMap) (r : Result)
    (h : parseWCS hdr = Except.ok r) : 0 ≤ r.pixelScale := by
  obtain ⟨hr, _⟩ := parseWCS_ok_elim h
  rw [hr]
  simp only [computeResult]
  exact pixelScaleVal_nonneg hdr

/-- C9 instantiated at a concrete header on which the parse succeeds. -/
theorem c9_pixelscale_nonneg_witness : 0 ≤ (computeResult hdrW2).pixelScale :=
  c9_pixelscale_nonneg hdrW2 (computeResult hdrW2)
    (parseWCS_eq_of_nonzero (by
      intro hc
      have h1 : raVal hdrW2 = 10 := by decide
      have h2 := hc.1
      simp only [computeResult] at h2
      rw [h1] at h2
      norm_num at h2))

/-- C10: every `Result` successfully returned by `ParseWCSFile` has
`Solved = true` — the flag is set unconditionally at construction and
never cleared on any path that returns a result. -/
theorem c10_solved_always (file : Option (List Char)) (r : Result)
    (h : ParseWCSFile file = Except.ok r) : r.solved = true := by
  cases file with
  | none => simp [ParseWCSFile] at h
  | some s =>
    have h2 : parseWCS (readHeader s) = Except.ok r := h
    obtain ⟨hr, _⟩ := parseWCS_ok_elim h2
    rw [hr]
    rfl

/-- C10 instantiated at a concrete byte stream whose parse succeeds. -/
theorem c10_solved_always_witness : (computeResult (readHeader streamW10)).solved = true :=
  c10_solved_always (some streamW10) (computeResult (readHeader streamW10))
    (parseWCS_eq_of_nonzero (by
      intro hc
      have h1 : raVal (readHeader streamW10) = 10 := by decide
      have h2 := hc.1
      simp only [computeResult] at h2
      rw [h1] at h2
      norm_num at h2))

end Solver
